import Mathlib

/-
Verification of the kanban drag-and-drop reordering core of the zenith_task
frontend, as implemented in
src/zenith-task-frontend/src/components/features/kanban/KanbanBoard.tsx.
The file embeds, as executable Lean definitions, the column grouping
projection (tasksByColumn), the drag-over reinsertion step (handleDragOver),
the drag-end finalization and reorder submission (handleDragEnd, in both
source variants of the component), and the sync completion handlers, and
proves or refutes the frozen claims about them.

Modelling conventions: JavaScript numbers used as task identifiers and
ordering keys are modelled as Int (the code only ever writes integer index
values into order_in_list, and compares keys numerically); a missing or
null order_in_list is Option.none; the JavaScript idiom of Infinity as the
sort key of a null order_in_list is modelled with WithTop Int; Array
methods findIndex and splice are modelled by the recursive functions
jsFindIdx?, jsRemoveAt and jsInsertAt, which implement precisely their
documented semantics, including the -1 not-found sentinel and the
append-when-out-of-range behaviour of splice.
-/

namespace Kanban

/-- Subset of the Task record relevant to ordering (see the data model in
the API schema: id is an integer, status a string, order_in_list a nullable
number, project_id a nullable integer). -/
structure Task where
  id : Int
  status : String
  order_in_list : Option Int
  project_id : Option Int
deriving DecidableEq, Repr

/-- Wire level change record, TaskReorderItem in types/api: the fields the
reorder endpoint receives for one task. -/
structure TaskReorderItem where
  task_id : Int
  new_status : String
  new_order_in_list : Int
deriving DecidableEq, Repr

/-- Column configuration record, KanbanColumnData in KanbanColumn.tsx. -/
structure KanbanColumnData where
  id : String
  title : String
deriving DecidableEq, Repr

/-- The fixed column configuration (KanbanBoard.tsx lines 28-32): the
columns state is initialised to this and never changed. -/
def defaultColumns : List KanbanColumnData :=
  [⟨"todo", "To Do"⟩, ⟨"inprogress", "In Progress"⟩, ⟨"done", "Done"⟩]

/-- The drop target reported by the drag library in the over field of a
drag event: either a column (over.id is the column id) or another task
(over.data.current.task). -/
inductive OverTarget where
  | column (colId : String)
  | task (t : Task)
deriving DecidableEq, Repr

/-- Model of Array.prototype.findIndex returning an optional index: the
first index whose element satisfies the predicate. -/
def jsFindIdx? {α : Type} (p : α → Bool) : List α → Option Nat
  | [] => none
  | x :: xs => if p x then some 0 else (jsFindIdx? p xs).map (· + 1)

/-- Model of Array.prototype.findIndex with the JavaScript -1 sentinel for
not found. -/
def jsFindIndexInt {α : Type} (p : α → Bool) (l : List α) : Int :=
  match jsFindIdx? p l with
  | none => -1
  | some i => (i : Int)

/-- Model of splice(i, 1): remove the element at index i (no change when i
is out of range). -/
def jsRemoveAt {α : Type} : List α → Nat → List α
  | [], _ => []
  | _ :: xs, 0 => xs
  | x :: xs, n + 1 => x :: jsRemoveAt xs n

/-- Model of indexing an array at a position, arr[i], as an optional
value. -/
def jsGet? {α : Type} : List α → Nat → Option α
  | [], _ => none
  | x :: _, 0 => some x
  | _ :: xs, n + 1 => jsGet? xs n

/-- Model of splice(i, 0, a): insert an element before index i; an index
at or beyond the length appends at the end, as splice does. -/
def jsInsertAt {α : Type} : List α → Nat → α → List α
  | l, 0, a => a :: l
  | [], _ + 1, a => [a]
  | x :: xs, n + 1, a => x :: jsInsertAt xs n a

/-- Sort key of a task with null mapped to positive infinity, as in the
comparator of tasksByColumn (KanbanBoard.tsx lines 77-84): orderA is
a.order_in_list ?? Infinity. -/
def ordKey (t : Task) : WithTop Int :=
  match t.order_in_list with
  | none => ⊤
  | some x => (x : WithTop Int)

/-- The total order implemented by the comparator in tasksByColumn
(KanbanBoard.tsx lines 77-84): ascending by order_in_list with null as
infinity, ties broken by ascending id. -/
def taskLE (a b : Task) : Prop :=
  ordKey a < ordKey b ∨ (ordKey a = ordKey b ∧ a.id ≤ b.id)

instance : DecidableRel taskLE := fun a b => by
  unfold taskLE; infer_instance

instance : IsTotal Task taskLE := ⟨by
  intro a b
  rcases lt_trichotomy (ordKey a) (ordKey b) with h | h | h
  · exact Or.inl (Or.inl h)
  · rcases le_total a.id b.id with h2 | h2
    · exact Or.inl (Or.inr ⟨h, h2⟩)
    · exact Or.inr (Or.inr ⟨h.symm, h2⟩)
  · exact Or.inr (Or.inl h)⟩

instance : IsTrans Task taskLE := ⟨by
  intro a b c hab hbc
  rcases hab with h1 | ⟨h1, h1i⟩ <;> rcases hbc with h2 | ⟨h2, h2i⟩
  · exact Or.inl (h1.trans h2)
  · exact Or.inl (h2 ▸ h1)
  · exact Or.inl (h1 ▸ h2)
  · exact Or.inr ⟨h1.trans h2, h1i.trans h2i⟩⟩

/-- Column resolution used by the grouping projection (KanbanBoard.tsx
line 72): a task keeps its status when the status string is truthy and
matches a configured column id, otherwise it falls back to the literal
string todo. -/
def resolveStatus (t : Task) : String :=
  if t.status != "" && defaultColumns.any (fun c => c.id == t.status)
  then t.status else "todo"

/-- The ordered task list of one column produced by tasksByColumn
(KanbanBoard.tsx lines 68-87): tasks are pushed into their resolved
column in input order and each column is then sorted with the comparator
modelled by taskLE. The sort of the source is the stable built in
Array.prototype.sort; insertionSort is a stable sorting algorithm and we
only state sortedness and permutation facts, which hold for any correct
sort with this comparator. -/
def tasksByColumn (tasks : List Task) (colId : String) : List Task :=
  List.insertionSort taskLE (tasks.filter (fun t => resolveStatus t == colId))

/-- The whole grouped map produced by tasksByColumn, with its keys: the
grouped object is initialised with one empty list per configured column
(line 70) and every task lands on one of those keys, so the key set is
exactly the configured column ids in configuration order. -/
def tasksByColumnMap (tasks : List Task) : List (String × List Task) :=
  defaultColumns.map (fun c => (c.id, tasksByColumn tasks c.id))

/-- Insertion index computed inside the setTasks updater of handleDragOver
(KanbanBoard.tsx lines 126-138), on the list from which the dragged task
has already been removed: hovering a task yields the index of that task
(JavaScript -1 when absent); hovering a column yields one past the first
index carrying the id of the last task of that column, or the list length
when the column is empty. -/
def reinsertIdx (rest : List Task) (over : OverTarget) (targetColumnId : String) : Int :=
  match over with
  | OverTarget.task ot => jsFindIndexInt (fun t => t.id == ot.id) rest
  | OverTarget.column _ =>
    match (rest.filter (fun t => t.status == targetColumnId)).getLast? with
    | some lastT => jsFindIndexInt (fun t => t.id == lastT.id) rest + 1
    | none => (rest.length : Int)

/-- The setTasks updater of handleDragOver (KanbanBoard.tsx lines 117-149):
find the dragged task, remove it, retag its status with the target column,
and splice it back in at the resolved index, appending when the index is
the -1 sentinel. -/
def applyDragOver (prev : List Task) (activeId : Int) (over : OverTarget)
    (targetColumnId : String) : List Task :=
  match jsFindIdx? (fun t => t.id == activeId) prev with
  | none => prev
  | some activeIndex =>
    match jsGet? prev activeIndex with
    | none => prev
    | some found =>
      let dragged : Task := { found with status := targetColumnId }
      let rest := jsRemoveAt prev activeIndex
      let k := reinsertIdx rest over targetColumnId
      if k != -1 then jsInsertAt rest k.toNat dragged else rest ++ [dragged]

/-- The full handleDragOver handler (KanbanBoard.tsx lines 101-150) acting
on the tasks state: nothing happens without an over target, when the over
id equals the active id (hovering the dragged card itself), or when the
resolved target column id is falsy; otherwise the updater applyDragOver
runs. A column target never equals the numeric active id because over.id
is then a string. -/
def handleDragOver (prev : List Task) (activeId : Int) (over : Option OverTarget) : List Task :=
  match over with
  | none => prev
  | some (OverTarget.task ot) =>
    if ot.id == activeId then prev
    else if ot.status == "" then prev
    else applyDragOver prev activeId (OverTarget.task ot) ot.status
  | some (OverTarget.column c) =>
    if c == "" then prev
    else applyDragOver prev activeId (OverTarget.column c) c

/-- Status the dragged task receives at drag end (KanbanBoard.tsx lines
168-174 of the first variant, 451-458 of the second): the id of the column
dropped on, or the status of the task dropped on. -/
def newStatusOfTarget (over : OverTarget) : String :=
  match over with
  | OverTarget.column c => c
  | OverTarget.task t => t.status

/-- Status update of the first matching task, modelling the index lookup
followed by an element replacement in handleDragEnd (KanbanBoard.tsx lines
179-186): only the first task with the active id has its status set. -/
def setStatusAtFirst (activeId : Int) (s : String) : List Task → List Task
  | [] => []
  | t :: ts =>
    if t.id == activeId then { t with status := s } :: ts
    else t :: setStatusAtFirst activeId s ts

/-- The order value allocated to the moved task by the first variant of
handleDragEnd (KanbanBoard.tsx lines 198-199): the 0 based findIndex of
the task inside the filter of the final state by the new status. -/
def newOrderV1 (finalTasksState : List Task) (activeId : Int) (newStatus : String) : Int :=
  jsFindIndexInt (fun t => t.id == activeId)
    (finalTasksState.filter (fun t => t.status == newStatus))

/-- The reorder payload built by the first variant of handleDragEnd
(KanbanBoard.tsx lines 201-205): a single change record for the moved
task. -/
def reorderPayloadV1 (finalTasksState : List Task) (activeId : Int)
    (newStatus : String) : List TaskReorderItem :=
  [⟨activeId, newStatus, newOrderV1 finalTasksState activeId newStatus⟩]

/-- Result of running handleDragEnd: the tasks state it leaves displayed
and the payload of the PUT /tasks/reorder call, if one is issued. -/
structure DragEndResult where
  newTasks : List Task
  call : Option (List TaskReorderItem)
deriving DecidableEq, Repr

/-- Condition guarding the submission in the first variant (KanbanBoard.tsx
line 214): the status changed, or the flat index of the task in the tasks
state differs from its flat index in the fetched list. -/
def dragChangedV1 (tasks fetchedList : List Task) (activeId : Int) (ov : OverTarget)
    (originalTask : Task) : Bool :=
  newStatusOfTarget ov != originalTask.status ||
    jsFindIndexInt (fun t => t.id == activeId) tasks !=
      jsFindIndexInt (fun t => t.id == activeId) fetchedList

/-- The first variant of handleDragEnd (KanbanBoard.tsx lines 152-227),
up to the point where the network request is issued: early return without
an over target or when the dragged id is absent from the fetched tasks;
otherwise the new status is resolved from the target, the optimistic final
state is the current tasks state with the status of the dragged task
updated, the payload is the single record of reorderPayloadV1, and the
request fires only when the guard dragChangedV1 holds. -/
def handleDragEndV1 (tasks : List Task) (fetched : Option (List Task))
    (activeId : Int) (over : Option OverTarget) : DragEndResult :=
  match over with
  | none => ⟨tasks, none⟩
  | some ov =>
    match (fetched.getD []).find? (fun t => t.id == activeId) with
    | none => ⟨tasks, none⟩
    | some originalTask =>
      if dragChangedV1 tasks (fetched.getD []) activeId ov originalTask then
        ⟨setStatusAtFirst activeId (newStatusOfTarget ov) tasks,
          some (reorderPayloadV1 (setStatusAtFirst activeId (newStatusOfTarget ov) tasks)
            activeId (newStatusOfTarget ov))⟩
      else ⟨tasks, none⟩

/-- Displayed tasks state after the sync of the first variant settles
(KanbanBoard.tsx lines 216-225): when no request was issued the state is
whatever handleDragEnd left; on success the SWR revalidation replaces it
with the authoritative server list; on failure the catch block restores
fetchedTasks (the pre drag server confirmed snapshot), or the empty list
when the cache was empty. -/
def displayedAfterSyncV1 (tasks : List Task) (fetched : Option (List Task))
    (activeId : Int) (over : Option OverTarget) (apiFails : Bool)
    (serverAuthoritative : List Task) : List Task :=
  let r := handleDragEndV1 tasks fetched activeId over
  match r.call with
  | none => r.newTasks
  | some _ => if apiFails then fetched.getD [] else serverAuthoritative

/-- First appearance ordering of the resolved status keys of a snapshot,
modelling the insertion order of the keys of the grouping object built by
the second variant of handleDragEnd (KanbanBoard.tsx lines 483-492). -/
def dedupKeys : List Task → List String
  | [] => []
  | t :: ts => resolveStatus t :: (dedupKeys ts).filter (fun s => !(s == resolveStatus t))

/-- The reorder payload built by the second variant of handleDragEnd
(KanbanBoard.tsx lines 482-502): every task of the snapshot, grouped by
resolved status in key insertion order, receives a record with its group
key and its 0 based position inside the group. -/
def reorderPayloadV2 (snapshot : List Task) : List TaskReorderItem :=
  (dedupKeys snapshot).flatMap (fun s =>
    ((snapshot.filter (fun t => resolveStatus t == s)).enum.map
      (fun p => ⟨p.2.id, s, (p.1 : Int)⟩)))

/-- Client visible state around the sync boundary: the displayed tasks
state, the authoritative server list, and the SWR cache (fetchedTasks). -/
structure BoardState where
  displayed : List Task
  serverState : List Task
  cache : List Task
deriving DecidableEq, Repr

/-- Completion of an in flight reorder submission, as handled by the code
after the await of the PUT (KanbanBoard.tsx lines 219-225 and 542-548):
success runs mutateSWRTasks, which refetches the authoritative server list
into the cache and re-renders from it; failure runs the catch block, which
restores the fetchedTasks value captured by the closure of the session
that issued the request. The handlers carry no session sequence number:
the state offers none to consult. -/
inductive SyncCompletion where
  | success
  | failure (capturedFetched : List Task)
deriving DecidableEq, Repr

/-- Effect of one sync completion on the board state, exactly as the two
handlers of the code behave. -/
def applyCompletion (st : BoardState) : SyncCompletion → BoardState
  | SyncCompletion.success => { st with cache := st.serverState, displayed := st.serverState }
  | SyncCompletion.failure cap => { st with displayed := cap }

/-- Folding a sequence of sync completions over the board state in their
arrival order on the single threaded event loop. -/
def runCompletions (st : BoardState) (es : List SyncCompletion) : BoardState :=
  es.foldl applyCompletion st

/-- Normalised insertion position of the dragged task: the splice index
used by applyDragOver, with the -1 sentinel branch (push to the end)
expressed as the list length. -/
def insPos (rest : List Task) (over : OverTarget) (targetColumnId : String) : Nat :=
  if reinsertIdx rest over targetColumnId == -1 then rest.length
  else (reinsertIdx rest over targetColumnId).toNat

/-- Scenario of the specification: task 3 (status todo, order 2) with a
done column holding task 5 (order 1) and task 9 (order 2). -/
def taskT3 : Task := ⟨3, "todo", some 2, none⟩

/-- Scenario task with id 5, status done, order 1. -/
def taskT5 : Task := ⟨5, "done", some 1, none⟩

/-- Scenario task with id 9, status done, order 2. -/
def taskT9 : Task := ⟨9, "done", some 2, none⟩

/-- The fetched (server confirmed) task list of the scenario. -/
def scenarioFetched : List Task := [taskT3, taskT5, taskT9]

/-- Tasks state after the drag over event that carries task 3 over the
done column: the working snapshot the drag end handler sees. -/
def scenarioAfterOver : List Task :=
  handleDragOver scenarioFetched 3 (some (OverTarget.column "done"))

/-- Board for the key allocation scenario: a todo task and a done column
with strictly increasing keys 10 and 20. -/
def taskOrigin : Task := ⟨1, "todo", some 0, none⟩

/-- Done task with ordering key 10. -/
def taskKeyTen : Task := ⟨5, "done", some 10, none⟩

/-- Done task with ordering key 20. -/
def taskKeyTwenty : Task := ⟨9, "done", some 20, none⟩

/-- The fetched task list of the key allocation scenario. -/
def boardWithKeys : List Task := [taskOrigin, taskKeyTen, taskKeyTwenty]

/-- Tasks state after dragging task 1 over the done column of the key
allocation scenario. -/
def boardKeysAfterOver : List Task :=
  handleDragOver boardWithKeys 1 (some (OverTarget.column "done"))

/-- Server confirmed result of a second sync that moved task 3 to done. -/
def taskDone3 : Task := ⟨3, "done", some 0, none⟩

/-- Cache captured before the first drag of the overlapping sync
scenario. -/
def preDragCache : List Task := [taskT3]

/-- A task whose status string matches no configured column. -/
def unknownStatusTask : Task := ⟨7, "archived", some 1, none⟩

/-- Helper lemmas about the JavaScript array primitives. -/
theorem jsFindIdx?_lt_length {α : Type} (p : α → Bool) (l : List α) (i : Nat)
    (h : jsFindIdx? p l = some i) : i < l.length := by
  induction l generalizing i with
  | nil => simp [jsFindIdx?] at h
  | cons x xs ih =>
    by_cases hp : p x
    · simp [jsFindIdx?, hp] at h
      simp [← h]
    · simp only [jsFindIdx?, hp, if_false, Bool.false_eq_true] at h
      cases hx : jsFindIdx? p xs with
      | none => rw [hx] at h; simp at h
      | some j =>
        rw [hx] at h
        simp at h
        have := ih j hx
        simp [← h, List.length_cons]
        omega

theorem jsFindIdx?_get {α : Type} (p : α → Bool) (l : List α) (i : Nat)
    (h : jsFindIdx? p l = some i) : ∃ a, jsGet? l i = some a ∧ p a = true := by
  induction l generalizing i with
  | nil => simp [jsFindIdx?] at h
  | cons x xs ih =>
    by_cases hp : p x
    · simp [jsFindIdx?, hp] at h
      exact ⟨x, by simp [← h, jsGet?], hp⟩
    · simp only [jsFindIdx?, hp, if_false, Bool.false_eq_true] at h
      cases hx : jsFindIdx? p xs with
      | none => rw [hx] at h; simp at h
      | some j =>
        rw [hx] at h
        simp at h
        obtain ⟨a, ha, hpa⟩ := ih j hx
        exact ⟨a, by simp [← h, jsGet?, ha], hpa⟩

theorem jsFindIdx?_isSome {α : Type} (p : α → Bool) (l : List α) (a : α)
    (ha : a ∈ l) (hp : p a = true) : ∃ i, jsFindIdx? p l = some i := by
  induction l with
  | nil => cases ha
  | cons x xs ih =>
    by_cases hx : p x
    · exact ⟨0, by simp [jsFindIdx?, hx]⟩
    · rcases List.mem_cons.mp ha with rfl | hmem
      · exact absurd hp (by simp [hx])
      · obtain ⟨j, hj⟩ := ih hmem
        exact ⟨j + 1, by simp [jsFindIdx?, hx, hj]⟩

theorem jsFindIdx?_jsInsertAt {α : Type} (p : α → Bool) (l : List α) (n : Nat) (a : α)
    (hp : p a = true) (hfree : ∀ x ∈ l, p x = false) (hn : n ≤ l.length) :
    jsFindIdx? p (jsInsertAt l n a) = some n := by
  induction l generalizing n with
  | nil =>
    have hn0 : n = 0 := by simpa using hn
    subst hn0
    simp [jsInsertAt, jsFindIdx?, hp]
  | cons x xs ih =>
    cases n with
    | zero => simp [jsInsertAt, jsFindIdx?, hp]
    | succ m =>
      have hx : p x = false := hfree x (List.mem_cons_self x xs)
      have hm : m ≤ xs.length := by simp [List.length_cons] at hn; omega
      have := ih m (fun y hy => hfree y (List.mem_cons_of_mem x hy)) hm
      simp [jsInsertAt, jsFindIdx?, hx, this]

theorem jsGet?_jsInsertAt {α : Type} (l : List α) (n : Nat) (a : α) (hn : n ≤ l.length) :
    jsGet? (jsInsertAt l n a) n = some a := by
  induction l generalizing n with
  | nil =>
    have hn0 : n = 0 := by simpa using hn
    subst hn0
    rfl
  | cons x xs ih =>
    cases n with
    | zero => rfl
    | succ m =>
      have hm : m ≤ xs.length := by simp [List.length_cons] at hn; omega
      simpa [jsInsertAt, jsGet?] using ih m hm

theorem jsRemoveAt_jsInsertAt {α : Type} (l : List α) (n : Nat) (a : α) (hn : n ≤ l.length) :
    jsRemoveAt (jsInsertAt l n a) n = l := by
  induction l generalizing n with
  | nil =>
    have hn0 : n = 0 := by simpa using hn
    subst hn0
    rfl
  | cons x xs ih =>
    cases n with
    | zero => rfl
    | succ m =>
      have hm : m ≤ xs.length := by simp [List.length_cons] at hn; omega
      simp [jsInsertAt, jsRemoveAt, ih m hm]

theorem jsInsertAt_length_eq_append {α : Type} (l : List α) (a : α) :
    jsInsertAt l l.length a = l ++ [a] := by
  induction l with
  | nil => rfl
  | cons x xs ih => simp [jsInsertAt, List.length_cons, ih]

theorem jsInsertAt_perm {α : Type} (l : List α) (n : Nat) (a : α) :
    (jsInsertAt l n a).Perm (a :: l) := by
  induction l generalizing n with
  | nil => cases n <;> rfl
  | cons x xs ih =>
    cases n with
    | zero => rfl
    | succ m =>
      show (x :: jsInsertAt xs m a).Perm (a :: x :: xs)
      exact ((ih m).cons x).trans (List.Perm.swap a x xs)

theorem mem_jsInsertAt {α : Type} (l : List α) (n : Nat) (a x : α) :
    x ∈ jsInsertAt l n a ↔ x = a ∨ x ∈ l := by
  rw [(jsInsertAt_perm l n a).mem_iff, List.mem_cons]

theorem jsGet?_perm_jsRemoveAt {α : Type} (l : List α) (i : Nat) (a : α)
    (h : jsGet? l i = some a) : l.Perm (a :: jsRemoveAt l i) := by
  induction l generalizing i with
  | nil => simp [jsGet?] at h
  | cons x xs ih =>
    cases i with
    | zero =>
      simp only [jsGet?] at h
      injection h with h
      subst h
      rfl
    | succ j =>
      simp only [jsGet?] at h
      show (x :: xs).Perm (a :: jsRemoveAt (x :: xs) (j + 1))
      simp only [jsRemoveAt]
      exact ((ih j h).cons x).trans (List.Perm.swap a x (jsRemoveAt xs j))

theorem jsRemoveAt_free (l : List Task) (aid : Int) (i : Nat) (found : Task)
    (hf : jsFindIdx? (fun t => t.id == aid) l = some i)
    (hg : jsGet? l i = some found)
    (hnd : (l.map Task.id).Nodup) :
    ∀ x ∈ jsRemoveAt l i, (x.id == aid) = false := by
  induction l generalizing i with
  | nil => simp [jsFindIdx?] at hf
  | cons t ts ih =>
    by_cases hp : (t.id == aid) = true
    · simp [jsFindIdx?, hp] at hf
      subst hf
      simp only [jsGet?] at hg
      injection hg with hg
      intro x hx
      simp only [jsRemoveAt] at hx
      have htid : t.id = aid := eq_of_beq hp
      have hnotin : t.id ∉ ts.map Task.id := (List.nodup_cons.mp hnd).1
      by_contra hxp
      have hxid : x.id = aid := eq_of_beq (by simpa using hxp)
      exact hnotin (by
        rw [htid, ← hxid]
        exact List.mem_map_of_mem Task.id hx)
    · simp only [jsFindIdx?, hp, if_false, Bool.false_eq_true] at hf
      cases hx : jsFindIdx? (fun t => t.id == aid) ts with
      | none => rw [hx] at hf; simp at hf
      | some j =>
        rw [hx] at hf
        simp at hf
        have hij : i = j + 1 := hf.symm
        subst hij
        simp only [jsGet?] at hg
        intro x hmem
        simp only [jsRemoveAt] at hmem
        rcases List.mem_cons.mp hmem with rfl | hmem2
        · simpa using hp
        · exact ih j hx hg (List.nodup_cons.mp hnd).2 x hmem2

theorem jsFindIndexInt_cases {α : Type} (p : α → Bool) (l : List α) :
    jsFindIndexInt p l = -1 ∨
      ∃ i, jsFindIdx? p l = some i ∧ jsFindIndexInt p l = (i : Int) ∧ i < l.length := by
  cases h : jsFindIdx? p l with
  | none => exact Or.inl (by simp [jsFindIndexInt, h])
  | some i =>
    exact Or.inr ⟨i, rfl, by simp [jsFindIndexInt, h], jsFindIdx?_lt_length p l i h⟩

theorem insPos_le (rest : List Task) (over : OverTarget) (tg : String) :
    insPos rest over tg ≤ rest.length := by
  unfold insPos
  by_cases hk : reinsertIdx rest over tg == -1
  · simp [hk]
  · simp only [hk, if_false, Bool.false_eq_true]
    cases over with
    | task ot =>
      simp only [reinsertIdx]
      rcases jsFindIndexInt_cases (fun t => t.id == ot.id) rest with hc | ⟨i, _, heq, hlt⟩
      · exact absurd hc (by
          intro hc2
          apply hk
          simp [reinsertIdx, hc2])
      · rw [heq]
        simp
        omega
    | column c =>
      simp only [reinsertIdx]
      cases hlast : (rest.filter (fun t => t.status == tg)).getLast? with
      | none => simp
      | some lastT =>
        have hmem : lastT ∈ rest :=
          List.mem_of_mem_filter (List.mem_of_mem_getLast? hlast)
        obtain ⟨i, hi⟩ :=
          jsFindIdx?_isSome (fun t => t.id == lastT.id) rest lastT hmem (beq_self_eq_true _)
        have hlt := jsFindIdx?_lt_length _ _ _ hi
        simp [jsFindIndexInt, hi]
        omega

theorem applyDragOver_not_found (prev : List Task) (aid : Int) (ov : OverTarget) (tg : String)
    (h : jsFindIdx? (fun t => t.id == aid) prev = none) :
    applyDragOver prev aid ov tg = prev := by
  unfold applyDragOver
  rw [h]

theorem applyDragOver_found (prev : List Task) (aid : Int) (ov : OverTarget) (tg : String)
    (i : Nat) (found : Task)
    (h1 : jsFindIdx? (fun t => t.id == aid) prev = some i)
    (h2 : jsGet? prev i = some found) :
    applyDragOver prev aid ov tg =
      jsInsertAt (jsRemoveAt prev i) (insPos (jsRemoveAt prev i) ov tg)
        { found with status := tg } := by
  unfold applyDragOver
  rw [h1]
  dsimp only
  rw [h2]
  dsimp only
  by_cases hk : reinsertIdx (jsRemoveAt prev i) ov tg == -1
  · have hkv : reinsertIdx (jsRemoveAt prev i) ov tg = -1 := eq_of_beq hk
    simp [hkv, insPos, jsInsertAt_length_eq_append]
  · have hkv : reinsertIdx (jsRemoveAt prev i) ov tg ≠ -1 := fun hc => hk (by simp [hc])
    simp [insPos, hk, hkv]

theorem applyDragOver_idem (prev : List Task) (aid : Int) (ov : OverTarget) (tg : String)
    (hnd : (prev.map Task.id).Nodup) :
    applyDragOver (applyDragOver prev aid ov tg) aid ov tg =
      applyDragOver prev aid ov tg := by
  cases hf : jsFindIdx? (fun t => t.id == aid) prev with
  | none => rw [applyDragOver_not_found _ _ _ _ hf, applyDragOver_not_found _ _ _ _ hf]
  | some i =>
    obtain ⟨found, hg, hp⟩ := jsFindIdx?_get _ _ _ hf
    have h1 := applyDragOver_found prev aid ov tg i found hf hg
    set rest := jsRemoveAt prev i with hrest
    set dragged : Task := { found with status := tg } with hdragged
    set n := insPos rest ov tg with hn'
    have hn : n ≤ rest.length := insPos_le rest ov tg
    have hfree : ∀ x ∈ rest, (x.id == aid) = false :=
      jsRemoveAt_free prev aid i found hf hg hnd
    have hpd : (dragged.id == aid) = true := hp
    have hf2 : jsFindIdx? (fun t => t.id == aid) (jsInsertAt rest n dragged) = some n :=
      jsFindIdx?_jsInsertAt _ _ _ _ hpd hfree hn
    have hg2 : jsGet? (jsInsertAt rest n dragged) n = some dragged :=
      jsGet?_jsInsertAt _ _ _ hn
    have h2 := applyDragOver_found (jsInsertAt rest n dragged) aid ov tg n dragged hf2 hg2
    rw [jsRemoveAt_jsInsertAt _ _ _ hn] at h2
    have hdd : ({ dragged with status := tg } : Task) = dragged := rfl
    rw [h1, h2, hdd]

/-- Every task resolves to one of the three configured column ids. -/
theorem resolveStatus_mem (t : Task) :
    resolveStatus t = "todo" ∨ resolveStatus t = "inprogress" ∨ resolveStatus t = "done" := by
  unfold resolveStatus
  by_cases h : (t.status != "" && defaultColumns.any (fun c => c.id == t.status)) = true
  · rw [if_pos h]
    have hany : defaultColumns.any (fun c => c.id == t.status) = true :=
      (Bool.and_eq_true _ _).mp h |>.2
    obtain ⟨c, hc, hcs⟩ := List.any_eq_true.mp hany
    have hcs2 : c.id = t.status := eq_of_beq hcs
    simp only [defaultColumns, List.mem_cons, List.mem_singleton] at hc
    rcases hc with rfl | rfl | rfl | hfalse
    · exact Or.inl hcs2.symm
    · exact Or.inr (Or.inl hcs2.symm)
    · exact Or.inr (Or.inr hcs2.symm)
    · cases hfalse
  · rw [if_neg h]
    exact Or.inl rfl

/-- Sum of the column populations: for a duplicate free key list covering
every resolved status, the filtered column sizes add up to the number of
tasks. -/
theorem sum_filter_lengths (keys : List String) (l : List Task)
    (hnd : keys.Nodup) (hmem : ∀ t ∈ l, resolveStatus t ∈ keys) :
    (keys.map (fun s => (l.filter (fun t => resolveStatus t == s)).length)).sum
      = l.length := by
  induction l with
  | nil => simp
  | cons t ts ih =>
    have hsplit :
        (keys.map (fun s => ((t :: ts).filter (fun u => resolveStatus u == s)).length))
          = keys.map (fun s =>
              (if resolveStatus t = s then 1 else 0) +
                (ts.filter (fun u => resolveStatus u == s)).length) := by
      apply List.map_congr_left
      intro s _
      by_cases hts : resolveStatus t = s
      · simp [List.filter_cons, hts]
        omega
      · simp [List.filter_cons, hts]
    rw [hsplit, List.sum_map_add]
    have hind :
        (keys.map (fun s => if resolveStatus t = s then 1 else 0)).sum = 1 := by
      have hm : resolveStatus t ∈ keys := hmem t (List.mem_cons_self t ts)
      clear hmem hsplit ih
      induction keys with
      | nil => cases hm
      | cons k ks ihk =>
        rcases List.mem_cons.mp hm with hk | hk
        · have hnotin : resolveStatus t ∉ ks := by
            rw [← hk] at hnd
            exact (List.nodup_cons.mp hnd).1
          have hzero : (ks.map (fun s => if resolveStatus t = s then (1 : Nat) else 0)).sum = 0 :=
            List.sum_eq_zero (by
              intro x hx
              obtain ⟨s, hs, hsx⟩ := List.mem_map.mp hx
              have hne : resolveStatus t ≠ s := fun hcon => hnotin (hcon ▸ hs)
              rw [← hsx, if_neg hne])
          rw [List.map_cons, List.sum_cons, if_pos hk, hzero]
        · have hne : resolveStatus t ≠ k := fun hcon => (List.nodup_cons.mp hnd).1 (hcon ▸ hk)
          simp [hne, ihk (List.nodup_cons.mp hnd).2 hk]
    rw [hind, ih (fun u hu => hmem u (List.mem_cons_of_mem t hu))]
    simp [List.length_cons]
    omega

/-- The key list of the second variant grouping object is duplicate
free. -/
theorem dedupKeys_nodup (l : List Task) : (dedupKeys l).Nodup := by
  induction l with
  | nil => exact List.nodup_nil
  | cons t ts ih =>
    simp only [dedupKeys]
    refine List.nodup_cons.mpr ⟨?_, ih.filter _⟩
    intro hmem
    have := List.of_mem_filter hmem
    simp at this

/-- Every resolved status of a snapshot appears among the grouping
keys. -/
theorem mem_dedupKeys (l : List Task) (t : Task) (ht : t ∈ l) :
    resolveStatus t ∈ dedupKeys l := by
  induction l with
  | nil => cases ht
  | cons u us ih =>
    rcases List.mem_cons.mp ht with rfl | hmem
    · exact List.mem_cons_self _ _
    · by_cases heq : resolveStatus t = resolveStatus u
      · rw [heq]; exact List.mem_cons_self _ _
      · refine List.mem_cons_of_mem _ (List.mem_filter.mpr ⟨ih hmem, ?_⟩)
        simp [heq]

/-- The batch of the second variant always has one record per task of the
snapshot. -/
theorem reorderPayloadV2_length (snapshot : List Task) :
    (reorderPayloadV2 snapshot).length = snapshot.length := by
  unfold reorderPayloadV2
  rw [List.length_flatMap]
  simp only [Function.comp_def, List.length_map, List.enum_length]
  exact sum_filter_lengths (dedupKeys snapshot) snapshot (dedupKeys_nodup snapshot)
    (fun t ht => mem_dedupKeys snapshot t ht)

/-- When the first variant issues a request, the payload is exactly the
single record of reorderPayloadV1 for the optimistic final state. -/
theorem handleDragEndV1_call_shape (tasks f : List Task) (aid : Int) (ov : OverTarget)
    (p : List TaskReorderItem)
    (h : (handleDragEndV1 tasks (some f) aid (some ov)).call = some p) :
    p = reorderPayloadV1 (setStatusAtFirst aid (newStatusOfTarget ov) tasks) aid
        (newStatusOfTarget ov) := by
  unfold handleDragEndV1 at h
  simp only [Option.getD_some] at h
  cases hfind : f.find? (fun t => t.id == aid) with
  | none => rw [hfind] at h; simp at h
  | some orig =>
    rw [hfind] at h
    dsimp only at h
    by_cases hch : dragChangedV1 tasks f aid ov orig = true
    · rw [if_pos hch] at h
      simp only at h
      exact (Option.some.injEq _ _ ▸ h).symm
    · rw [if_neg hch] at h
      simp at h

/-- Frame facts about the drag over updater: identity when the dragged id
is absent, preservation of the id multiset, untouched non dragged tasks in
both directions, and preservation of every field except status. -/
theorem applyDragOver_frame (prev : List Task) (aid : Int) (ov : OverTarget) (tg : String) :
    (jsFindIdx? (fun t => t.id == aid) prev = none → applyDragOver prev aid ov tg = prev) ∧
    ((applyDragOver prev aid ov tg).map Task.id).Perm (prev.map Task.id) ∧
    (∀ x ∈ applyDragOver prev aid ov tg, x.id ≠ aid → x ∈ prev) ∧
    (∀ x ∈ prev, x.id ≠ aid → x ∈ applyDragOver prev aid ov tg) ∧
    (∀ x ∈ applyDragOver prev aid ov tg,
      ∃ u ∈ prev, u.id = x.id ∧ u.order_in_list = x.order_in_list ∧
        u.project_id = x.project_id) := by
  cases hf : jsFindIdx? (fun t => t.id == aid) prev with
  | none =>
    rw [applyDragOver_not_found prev aid ov tg hf]
    exact ⟨fun _ => rfl, List.Perm.refl _, fun x hx _ => hx, fun x hx _ => hx,
      fun x hx => ⟨x, hx, rfl, rfl, rfl⟩⟩
  | some i =>
    obtain ⟨found, hg, hp⟩ := jsFindIdx?_get _ _ _ hf
    have heq := applyDragOver_found prev aid ov tg i found hf hg
    have hperm1 : prev.Perm (found :: jsRemoveAt prev i) :=
      jsGet?_perm_jsRemoveAt prev i found hg
    have hperm2 :
        (jsInsertAt (jsRemoveAt prev i) (insPos (jsRemoveAt prev i) ov tg)
            ({ found with status := tg } : Task)).Perm
          (({ found with status := tg } : Task) :: jsRemoveAt prev i) :=
      jsInsertAt_perm _ _ _
    have hfid : found.id = aid := eq_of_beq hp
    refine ⟨?_, ?_, ?_, ?_, ?_⟩
    · intro hnone
      exact absurd hnone (by simp)
    · rw [heq]
      exact (hperm2.map Task.id).trans ((hperm1.map Task.id).symm)
    · intro x hx hxid
      rw [heq] at hx
      rcases (mem_jsInsertAt _ _ _ x).mp hx with rfl | hxr
      · exact absurd hfid hxid
      · exact hperm1.mem_iff.mpr (List.mem_cons_of_mem found hxr)
    · intro x hx hxid
      have hx2 : x ∈ found :: jsRemoveAt prev i := hperm1.mem_iff.mp hx
      rcases List.mem_cons.mp hx2 with rfl | hxr
      · exact absurd hfid hxid
      · rw [heq]
        exact (mem_jsInsertAt _ _ _ x).mpr (Or.inr hxr)
    · intro x hx
      rw [heq] at hx
      rcases (mem_jsInsertAt _ _ _ x).mp hx with rfl | hxr
      · exact ⟨found, hperm1.mem_iff.mpr (List.mem_cons_self _ _), rfl, rfl, rfl⟩
      · exact ⟨x, hperm1.mem_iff.mpr (List.mem_cons_of_mem found hxr), rfl, rfl, rfl⟩

/-- The drag over handler either leaves the state unchanged (guard
branches) or runs the updater applyDragOver. -/
theorem handleDragOver_eq_or (prev : List Task) (aid : Int) (over : Option OverTarget) :
    handleDragOver prev aid over = prev ∨
      ∃ ov tg, handleDragOver prev aid over = applyDragOver prev aid ov tg := by
  cases over with
  | none => exact Or.inl rfl
  | some ov =>
    cases ov with
    | task ot =>
      by_cases h1 : (ot.id == aid) = true
      · exact Or.inl (by simp [handleDragOver, h1])
      · by_cases h2 : (ot.status == "") = true
        · exact Or.inl (by simp [handleDragOver, h1, h2])
        · exact Or.inr ⟨OverTarget.task ot, ot.status, by simp [handleDragOver, h1, h2]⟩
    | column c =>
      by_cases h1 : (c == "") = true
      · exact Or.inl (by simp [handleDragOver, h1])
      · exact Or.inr ⟨OverTarget.column c, c, by simp [handleDragOver, h1]⟩

/-- C1 counterexample: in the scenario of the claim (task 3 of status todo
and order 2 dragged to the end of the done column holding tasks 5 and 9),
the first variant of handleDragEnd submits the single record with task_id
3, new_status done and new_order_in_list 2 (the 0 based index of the task
inside the done column), not 3 as the claim states; and the batch built by
the second variant holds one record per task of the board, the unchanged
tasks 5 and 9 included, so that variant does not exclude unchanged tasks
from the batch. -/
theorem c1_claimed_batch_counterexample :
    (handleDragEndV1 scenarioAfterOver (some scenarioFetched) 3
        (some (OverTarget.column "done"))).call
      = some [⟨3, "done", 2⟩] ∧
    some [(⟨3, "done", 2⟩ : TaskReorderItem)] ≠ some [(⟨3, "done", 3⟩ : TaskReorderItem)] ∧
    reorderPayloadV2 scenarioAfterOver =
      [⟨5, "done", 0⟩, ⟨9, "done", 1⟩, ⟨3, "done", 2⟩] := by
  decide

/-- C1 amended: whenever the first variant of handleDragEnd issues a
request, the batch holds exactly one record, for the moved task, whose
new_order_in_list is the 0 based index of that task inside the destination
column of the optimistic final state (2 in the scenario of the claim, not
3); the second variant instead always builds one record per task of the
snapshot, unchanged tasks included. -/
theorem c1_single_record_batch :
    (∀ tasks f aid ov p, (handleDragEndV1 tasks (some f) aid (some ov)).call = some p →
      p.length = 1 ∧ ∀ it ∈ p, it.task_id = aid) ∧
    (∀ snapshot, (reorderPayloadV2 snapshot).length = snapshot.length) := by
  constructor
  · intro tasks f aid ov p h
    have hshape := handleDragEndV1_call_shape tasks f aid ov p h
    subst hshape
    refine ⟨rfl, ?_⟩
    intro it hit
    rcases List.mem_singleton.mp hit with rfl
    rfl
  · exact reorderPayloadV2_length

/-- C1 witness: the amended statement evaluated on the scenario of the
claim. -/
theorem c1_single_record_batch_witness :
    [(⟨3, "done", (2 : Int)⟩ : TaskReorderItem)].length = 1 ∧
    ∀ it ∈ [(⟨3, "done", (2 : Int)⟩ : TaskReorderItem)], it.task_id = 3 :=
  c1_single_record_batch.1 scenarioAfterOver scenarioFetched 3 (OverTarget.column "done")
    [⟨3, "done", 2⟩] (by decide)

/-- C2: whenever the first variant of handleDragEnd has issued a reorder
request and the request fails, the displayed task state after recovery is
exactly the fetched pre drag server confirmed snapshot: the working state
is discarded whole and no half applied reorder remains visible. -/
theorem c2_atomic_rollback (tasks f : List Task) (aid : Int) (over : Option OverTarget)
    (server : List Task)
    (h : (handleDragEndV1 tasks (some f) aid over).call ≠ none) :
    displayedAfterSyncV1 tasks (some f) aid over true server = f := by
  unfold displayedAfterSyncV1
  cases hc : (handleDragEndV1 tasks (some f) aid over).call with
  | none => exact absurd hc h
  | some p => simp [hc]

/-- C2 witness: the rollback equation evaluated on the scenario of the
claim, with a failing request. -/
theorem c2_atomic_rollback_witness :
    displayedAfterSyncV1 scenarioAfterOver (some scenarioFetched) 3
      (some (OverTarget.column "done")) true [] = scenarioFetched :=
  c2_atomic_rollback scenarioAfterOver scenarioFetched 3
    (some (OverTarget.column "done")) [] (by decide)

/-- C3: the drag over reinsertion is idempotent: for any snapshot with
duplicate free task ids, any dragged task and any fixed hover target,
running the handler twice yields the same task sequence as running it
once, so repeated pointer over events for the same target cause no
drift. -/
theorem c3_dragOver_idempotent (prev : List Task) (aid : Int) (over : Option OverTarget)
    (hnd : (prev.map Task.id).Nodup) :
    handleDragOver (handleDragOver prev aid over) aid over =
      handleDragOver prev aid over := by
  cases over with
  | none => rfl
  | some ov =>
    cases ov with
    | task ot =>
      by_cases h1 : (ot.id == aid) = true
      · simp [handleDragOver, h1]
      · by_cases h2 : (ot.status == "") = true
        · simp [handleDragOver, h1, h2]
        · simp only [handleDragOver, h1, h2, if_false, Bool.false_eq_true]
          exact applyDragOver_idem prev aid (OverTarget.task ot) ot.status hnd
    | column c =>
      by_cases h1 : (c == "") = true
      · simp [handleDragOver, h1]
      · simp only [handleDragOver, h1, if_false, Bool.false_eq_true]
        exact applyDragOver_idem prev aid (OverTarget.column c) c hnd

/-- C3 witness: idempotence evaluated on the scenario drag. -/
theorem c3_dragOver_idempotent_witness :
    handleDragOver (handleDragOver scenarioFetched 3 (some (OverTarget.column "done"))) 3
        (some (OverTarget.column "done"))
      = handleDragOver scenarioFetched 3 (some (OverTarget.column "done")) :=
  c3_dragOver_idempotent scenarioFetched 3 (some (OverTarget.column "done")) (by decide)

/-- C4: every column list of the grouping projection is sorted by the
comparator order taskLE, that is ascending order_in_list with null treated
as positive infinity (unkeyed tasks last) and ascending id as tie break,
and it is a permutation of the tasks resolved to the column; being a pure
function of the input, the projection is deterministic also when keys are
null or duplicated. -/
theorem c4_column_order (tasks : List Task) (colId : String) :
    (tasksByColumn tasks colId).Sorted taskLE ∧
    (tasksByColumn tasks colId).Perm
      (tasks.filter (fun t => resolveStatus t == colId)) :=
  ⟨List.sorted_insertionSort taskLE _, List.perm_insertionSort taskLE _⟩

/-- C5 counterexample: dragging task 1 to the tail of a done column whose
existing keys are 10 and 20 allocates new_order_in_list 2, the positional
index, which is not strictly above the last key 20 as the claim requires
for a tail insertion. -/
theorem c5_between_neighbors_counterexample :
    (handleDragEndV1 boardKeysAfterOver (some boardWithKeys) 1
        (some (OverTarget.column "done"))).call
      = some [⟨1, "done", 2⟩] ∧
    ¬ ((20 : Int) < 2) := by
  decide

/-- C5 amended: the allocated order_in_list is always the 0 based position
of the moved task inside the destination column of the optimistic final
state, independent of the numeric keys of its neighbors (sequential re
indexing is delegated to the server), and the single record batch leaves
the key of every other task untouched on the client. -/
theorem c5_positional_allocation (tasks f : List Task) (aid : Int) (ov : OverTarget)
    (p : List TaskReorderItem)
    (h : (handleDragEndV1 tasks (some f) aid (some ov)).call = some p) :
    p = [⟨aid, newStatusOfTarget ov,
      newOrderV1 (setStatusAtFirst aid (newStatusOfTarget ov) tasks) aid
        (newStatusOfTarget ov)⟩] :=
  handleDragEndV1_call_shape tasks f aid ov p h

/-- C5 witness: the positional allocation evaluated on the key scenario. -/
theorem c5_positional_allocation_witness :
    [(⟨1, "done", (2 : Int)⟩ : TaskReorderItem)] =
      [⟨1, newStatusOfTarget (OverTarget.column "done"),
        newOrderV1 (setStatusAtFirst 1 (newStatusOfTarget (OverTarget.column "done"))
          boardKeysAfterOver) 1 (newStatusOfTarget (OverTarget.column "done"))⟩] :=
  c5_positional_allocation boardKeysAfterOver boardWithKeys 1 (OverTarget.column "done")
    [⟨1, "done", 2⟩] (by decide)

/-- C6 counterexample: a release outside any target (over is null) after
drag over events makes no network call but leaves the displayed list equal
to the drag over preview, which differs from the fetched Task Store
snapshot — rendering is not restored from the Task Store as the claim
states. -/
theorem c6_restore_counterexample :
    (handleDragEndV1 scenarioAfterOver (some scenarioFetched) 3 none).call = none ∧
    (handleDragEndV1 scenarioAfterOver (some scenarioFetched) 3 none).newTasks
      = scenarioAfterOver ∧
    scenarioAfterOver ≠ scenarioFetched := by
  decide

/-- C6 amended: on release outside any valid target the session is indeed
treated as cancelled in the sense that no network call is made, but the
working snapshot is not discarded: the handler returns the tasks state
unchanged, so the drag over preview stays displayed instead of a restore
from the Task Store. -/
theorem c6_cancel_keeps_preview (tasks : List Task) (fetched : Option (List Task))
    (aid : Int) :
    handleDragEndV1 tasks fetched aid none = ⟨tasks, none⟩ := rfl

/-- C7 counterexample: sync B has completed (displayed list, server list
and cache all hold task 3 done); the late failure completion of the
earlier sync A, whose closure captured the pre drag cache, then overwrites
the newer state with that stale snapshot instead of being discarded. -/
theorem c7_stale_completion_counterexample :
    (runCompletions ⟨[taskDone3], [taskDone3], preDragCache⟩
        [SyncCompletion.success, SyncCompletion.failure preDragCache]).displayed
      = preDragCache ∧
    preDragCache ≠ [taskDone3] := by
  decide

/-- C7 amended: the code carries no session sequence number and discards
no completion: each sync completion handler runs unconditionally in
arrival order, so the last arriving completion determines the displayed
state — a late failure displays the pre drag snapshot its closure
captured, and a late success displays the current server list. -/
theorem c7_last_completion_wins (st : BoardState) (es : List SyncCompletion)
    (cap : List Task) :
    (runCompletions st (es ++ [SyncCompletion.failure cap])).displayed = cap ∧
    (runCompletions st (es ++ [SyncCompletion.success])).displayed
      = (runCompletions st es).serverState := by
  unfold runCompletions
  rw [List.foldl_append, List.foldl_append]
  exact ⟨rfl, rfl⟩

/-- C8: a task whose status is empty or matches no configured column id is
resolved to the first configured column, todo, and lands in the todo list
of the projection; the projection is a total function and cannot fail. -/
theorem c8_unknown_status_to_todo (tasks : List Task) (t : Task) (ht : t ∈ tasks)
    (hbad : t.status = "" ∨ ∀ c ∈ defaultColumns, c.id ≠ t.status) :
    resolveStatus t = "todo" ∧ t ∈ tasksByColumn tasks "todo" := by
  have hres : resolveStatus t = "todo" := by
    unfold resolveStatus
    rcases hbad with hb | hb
    · simp [hb]
    · have hany : defaultColumns.any (fun c => c.id == t.status) = false := by
        rw [List.any_eq_false]
        intro c hc hcon
        exact hb c hc (eq_of_beq hcon)
      simp [hany]
  refine ⟨hres, ?_⟩
  unfold tasksByColumn
  exact (List.perm_insertionSort taskLE _).mem_iff.mpr
    (List.mem_filter.mpr ⟨ht, by simp [hres]⟩)

/-- C8 witness: a task with an unconfigured status lands in the todo
column. -/
theorem c8_unknown_status_to_todo_witness :
    resolveStatus unknownStatusTask = "todo" ∧
      unknownStatusTask ∈ tasksByColumn [unknownStatusTask] "todo" :=
  c8_unknown_status_to_todo [unknownStatusTask] unknownStatusTask (by decide)
    (Or.inr (by decide))

/-- C9: the grouping projection partitions its input: its key list is
exactly the configured column ids, the column sizes add up to the number
of tasks, and every column list is a permutation of the input tasks
resolving to that column, so each task occurrence lands in exactly one
column. -/
theorem c9_partition (tasks : List Task) :
    (tasksByColumnMap tasks).map Prod.fst = defaultColumns.map KanbanColumnData.id ∧
    ((tasksByColumnMap tasks).map (fun p => p.2.length)).sum = tasks.length ∧
    (tasksByColumn tasks "todo").Perm
      (tasks.filter (fun t => resolveStatus t == "todo")) ∧
    (tasksByColumn tasks "inprogress").Perm
      (tasks.filter (fun t => resolveStatus t == "inprogress")) ∧
    (tasksByColumn tasks "done").Perm
      (tasks.filter (fun t => resolveStatus t == "done")) := by
  refine ⟨rfl, ?_, List.perm_insertionSort taskLE _, List.perm_insertionSort taskLE _,
    List.perm_insertionSort taskLE _⟩
  have h1 : ((tasksByColumnMap tasks).map (fun p => p.2.length))
      = defaultColumns.map (fun c => (tasksByColumn tasks c.id).length) := by
    simp [tasksByColumnMap, List.map_map, Function.comp_def]
  have h2 : defaultColumns.map (fun c => (tasksByColumn tasks c.id).length)
      = defaultColumns.map
          (fun c => (tasks.filter (fun t => resolveStatus t == c.id)).length) := by
    apply List.map_congr_left
    intro c _
    exact (List.perm_insertionSort taskLE _).length_eq
  rw [h1, h2]
  have h3 := sum_filter_lengths (defaultColumns.map KanbanColumnData.id) tasks
    (by decide)
    (fun t ht => by
      rcases resolveStatus_mem t with h | h | h <;> simp [h, defaultColumns])
  rw [List.map_map] at h3
  exact h3

/-- C10: the drag over transformation preserves the multiset of task ids,
keeps every task other than the dragged one unchanged in both directions,
changes no field except the status of the dragged task, and returns the
snapshot unchanged when the dragged id is absent. -/
theorem c10_dragOver_frame (prev : List Task) (aid : Int) (over : Option OverTarget) :
    (jsFindIdx? (fun t => t.id == aid) prev = none → handleDragOver prev aid over = prev) ∧
    ((handleDragOver prev aid over).map Task.id).Perm (prev.map Task.id) ∧
    (∀ x ∈ handleDragOver prev aid over, x.id ≠ aid → x ∈ prev) ∧
    (∀ x ∈ prev, x.id ≠ aid → x ∈ handleDragOver prev aid over) ∧
    (∀ x ∈ handleDragOver prev aid over,
      ∃ u ∈ prev, u.id = x.id ∧ u.order_in_list = x.order_in_list ∧
        u.project_id = x.project_id) := by
  rcases handleDragOver_eq_or prev aid over with hid | ⟨ov, tg, happ⟩
  · rw [hid]
    exact ⟨fun _ => rfl, List.Perm.refl _, fun x hx _ => hx, fun x hx _ => hx,
      fun x hx => ⟨x, hx, rfl, rfl, rfl⟩⟩
  · rw [happ]
    exact applyDragOver_frame prev aid ov tg

/-- C10 witness: the frame facts evaluated on a one task board where the
dragged id is absent. -/
theorem c10_dragOver_frame_witness :
    handleDragOver [taskT5] 3 (some (OverTarget.column "done")) = [taskT5] ∧
      taskT5 ∈ handleDragOver [taskT5] 3 (some (OverTarget.column "done")) :=
  ⟨(c10_dragOver_frame [taskT5] 3 (some (OverTarget.column "done"))).1 (by decide),
    (c10_dragOver_frame [taskT5] 3 (some (OverTarget.column "done"))).2.2.2.1 taskT5
      (by decide) (by decide)⟩

end Kanban
